import Mathlib

/-!
Shallow embedding of the panoptic_mapping core:
  * the per-voxel codec (`convertVoxelToInt32` / `readVoxelFromInt32`),
  * voxel fusion (`mergeVoxelAIntoVoxelB` for both voxel variants),
  * block serialization (`serializeToIntegers` / `deserializeFromIntegers`),
  * the sub-map collection (`SubmapCollection`).

Machine integers are modelled as `Nat`/`Int` with explicit `% 2^w` at the
points where the C++ source performs a narrowing cast or where a fixed-width
field is read back.  Fallible code (heap pop on an empty `std::priority_queue`,
checked `std::vector::at` access, `CHECK_*` macros) is modelled with `Option`.
-/

namespace PanopticMapping

/-- Modelled from the spec: `PANOPTIC_MAPPING_SERIALIZE_TOP_N_COUNTS`, the
fixed compile-time top-K constant.  The macro definition itself is not in the
sources; the source comment on `get_top_n_elems` says it stores the top 3. -/
def TOP_N : Nat := 3

/-- Modelled from the spec: `COUNTER_SIZE_BITS`, the fixed bit width of one
class counter.  The spec fixes counters to "fit in 16 bits" and requires the
width to divide 32; the matching value is 16. -/
def COUNTER_SIZE_BITS : Nat := 16

/-- Modelled from the spec: `panoptic_mapping::ClassVoxel` (its header is not
under the sources).  `counts` is the per-class counter sequence (16-bit
`Counter` values), `belongs_count` / `foreign_count` are 16-bit counters,
`current_index` is an `Int` with sentinel `-1`, `is_gt` the ground-truth
flag. -/
structure ClassVoxel where
  counts : List Nat
  belongs_count : Nat
  foreign_count : Nat
  current_index : Int
  is_gt : Bool
  deriving Repr, DecidableEq

/-- Modelled from the spec: `panoptic_mapping::ClassUncertaintyVoxel`, a
`ClassVoxel` plus a scalar `uncertainty_value` (averaged on fusion). -/
structure ClassUncertaintyVoxel extends ClassVoxel where
  uncertainty_value : ℚ
  deriving Repr, DecidableEq

/-- Strict comparison on `(count, index)` pairs, the natural
`std::pair<Counter, uint8_t>` ordering used by the max-heap in
`get_top_n_elems`. -/
def pairLt (a b : Nat × Nat) : Bool :=
  a.1 < b.1 || (a.1 == b.1 && a.2 < b.2)

/-- Result of `std::priority_queue::top()`: a maximal element of the pending
multiset under the pair ordering (`none` on an empty heap, which is undefined
behaviour in the C++ source). -/
def pqMax : List (Nat × Nat) → Option (Nat × Nat)
  | [] => none
  | x :: xs =>
    match pqMax xs with
    | none => some x
    | some m => if pairLt m x then some x else some m

/-- Popping `n` elements from the max-heap: each step takes a maximal element
and removes it; fails (`none`) if the heap runs empty, mirroring the undefined
`top()`/`pop()` on an empty `std::priority_queue`. -/
def popSeq : Nat → List (Nat × Nat) → Option (List (Nat × Nat))
  | 0, _ => some []
  | n + 1, l =>
    match pqMax l with
    | none => none
    | some m => (popSeq n (l.erase m)).map (m :: ·)

/-- Pairs pushed onto the heap by `get_top_n_elems`: the push loop counter is
a `uint8_t` compared against `static_cast<uint8_t>(all_items.size())`, so only
the first `size % 256` items are pushed. -/
def heapPairs (all_items : List Nat) : List (Nat × Nat) :=
  (List.range (all_items.length % 256)).map (fun i => (all_items.getD i 0, i))

/-- Embedding of `get_top_n_elems`: push `(count, index)` pairs for the items,
then pop `n` times, returning the popped `(indices, counts)` column-wise. -/
def get_top_n_elems (all_items : List Nat) (n : Nat) :
    Option (List Nat × List Nat) :=
  (popSeq n (heapPairs all_items)).map fun ps => (ps.map (·.2), ps.map (·.1))

/-- Inner loop of `convert_vector_to_uint32`: `j` is `byte_idx`, `acc` the
partially filled 32-bit word; a full word is pushed every `32 / bits` entries
and a partially filled word is pushed at the end. -/
def packWords (bits : Nat) : List Nat → Nat → Nat → List Nat
  | [], j, acc => if j = 0 then [] else [acc]
  | v :: rest, j, acc =>
    let acc' := (acc + v * 2 ^ (j * bits)) % 4294967296
    if j = 32 / bits - 1 then acc' :: packWords bits rest 0 0
    else packWords bits rest (j + 1) acc'

/-- Embedding of `convert_vector_to_uint32`. -/
def convert_vector_to_uint32 (data : List Nat) (bits_per_entry : Nat) :
    List Nat :=
  packWords bits_per_entry data 0 0

/-- Embedding of `convertVoxelToInt32` for `ClassVoxel`.  The `CHECK_LT`
precondition failure and the empty-heap pop inside `get_top_n_elems` are both
modelled as `none`.  The three header words are built exactly as in the
source: `belongs | foreign << 16` and `is_gt | current_index << 16`, with the
`% 65536` factors standing for the 16-bit field width respectively the low 16
bits kept by `uint32 << 16`. -/
def convertVoxelToInt32 (voxel : ClassVoxel) : Option (List Nat) :=
  let class_count := voxel.counts.length
  if class_count < 258 then
    let data := [class_count,
      voxel.belongs_count % 65536 + (voxel.foreign_count % 65536) * 65536,
      (if voxel.is_gt then 1 else 0) +
        (voxel.current_index % 65536).toNat * 65536]
    if class_count = 0 then some data
    else
      match get_top_n_elems voxel.counts TOP_N with
      | none => none
      | some (indices_list, score_counts) =>
        some (data ++ convert_vector_to_uint32 indices_list 8 ++
          convert_vector_to_uint32 score_counts COUNTER_SIZE_BITS)
  else none

/-- Checked element access `data->at(i)` on a `std::vector<uint32_t>`: fails
outside the bounds, and every stored word is a 32-bit value. -/
def at32 (data : List Nat) (i : Nat) : Option Nat :=
  (data.get? i).map (· % 4294967296)

/-- Extraction loop of `readVoxelFromInt32`: reads `n` fields of width `bits`
packed `32 / bits` per word starting at word `base`.  Each field is the
masked, shifted slice truncated by the final narrowing cast, which for a
32-bit word equals `(word >>> (slot * bits)) % 2 ^ bits`. -/
def readPacked (data : List Nat) (base bits n : Nat) : Option (List Nat) :=
  (List.range n).mapM (fun i =>
    (at32 data (base + i / (32 / bits))).map
      (fun w => (w >>> ((i % (32 / bits)) * bits)) % 2 ^ bits))

/-- Scatter loop of `readVoxelFromInt32`:
`voxel.counts.at(indices.at(i)) = counts.at(i)`.  The checked access throws
(`none`) when a decoded index is outside the reconstructed counts vector. -/
def scatterCounts : List Nat → List (Nat × Nat) → Option (List Nat)
  | base, [] => some base
  | base, (i, c) :: rest =>
    if i < base.length then scatterCounts (base.set i c) rest else none

/-- Embedding of `readVoxelFromInt32` for `ClassVoxel`.  The `% 65536 % 256`
chains are the source's 16-bit masks followed by the narrowing
`static_cast<uint8_t>`; the two `data_idx` advances are
`ceil(TOP_N / 4)` and `ceil(TOP_N / (32 / COUNTER_SIZE_BITS))`. -/
def readVoxelFromInt32 (data : List Nat) (data_idx : Nat) :
    Option (ClassVoxel × Nat) := do
  let num_classes ← at32 data data_idx
  let bytes_1 ← at32 data (data_idx + 1)
  let bytes_2 ← at32 data (data_idx + 2)
  let foreign_count := ((bytes_1 >>> 16) % 65536) % 256
  let belongs_count := (bytes_1 % 65536) % 256
  let current_index : Int := (((bytes_2 >>> 16) % 65536) % 256 : Nat)
  let is_gt := bytes_2 % 65536 != 0
  if num_classes = 0 then
    return ({ counts := [], belongs_count := belongs_count,
              foreign_count := foreign_count, current_index := -1,
              is_gt := is_gt }, data_idx + 3)
  else
    let base := List.replicate num_classes 0
    let indices ← readPacked data (data_idx + 3) 8 TOP_N
    let idx2 := data_idx + 3 + (TOP_N + 3) / 4
    let counts ← readPacked data idx2 COUNTER_SIZE_BITS TOP_N
    let data_per_int := 32 / COUNTER_SIZE_BITS
    let idx3 := idx2 + (TOP_N + data_per_int - 1) / data_per_int
    let scattered ← scatterCounts base (indices.zip counts)
    return ({ counts := scattered, belongs_count := belongs_count,
              foreign_count := foreign_count, current_index := current_index,
              is_gt := is_gt }, idx3)

/-- Indices selected by the codec's top-K selection (first component of
`get_top_n_elems`, empty when the selection fails). -/
def topIndices (counts : List Nat) : List Nat :=
  match get_top_n_elems counts TOP_N with
  | some (idx, _) => idx
  | none => []

/-- Modelled from the spec: `classVoxelBelongingProbability`, the ratio of
"belongs" votes to total votes, probability 0 when both counters are zero
(in `ℚ` the division `0 / 0` is 0, matching that rule). -/
def classVoxelBelongingProbability (voxel : ClassVoxel) : ℚ :=
  (voxel.belongs_count : ℚ) / ((voxel.belongs_count : ℚ) + voxel.foreign_count)

/-- Embedding of `mergeVoxelAIntoVoxelB<panoptic_mapping::ClassVoxel>`: B
adopts A's assignment fields when A is ground truth or A's belonging
probability strictly exceeds B's and B is not ground truth; A being ground
truth additionally sets B's flag. -/
def mergeVoxelAIntoVoxelB (voxel_A voxel_B : ClassVoxel) : ClassVoxel :=
  let voxel_B :=
    if voxel_A.is_gt = true ∨
        (classVoxelBelongingProbability voxel_A >
          classVoxelBelongingProbability voxel_B ∧ ¬voxel_B.is_gt = true) then
      { voxel_B with
        current_index := voxel_A.current_index,
        foreign_count := voxel_A.foreign_count,
        belongs_count := voxel_A.belongs_count,
        counts := voxel_A.counts }
    else voxel_B
  if voxel_A.is_gt then { voxel_B with is_gt := true } else voxel_B

/-- Embedding of
`mergeVoxelAIntoVoxelB<panoptic_mapping::ClassUncertaintyVoxel>`: the base
merge runs on the `ClassVoxel` parts, then the uncertainty is averaged
whenever the (already merged) target is not ground truth. -/
def mergeUncertaintyVoxelAIntoVoxelB (voxel_A voxel_B : ClassUncertaintyVoxel) :
    ClassUncertaintyVoxel :=
  let merged := mergeVoxelAIntoVoxelB voxel_A.toClassVoxel voxel_B.toClassVoxel
  let voxel_B' : ClassUncertaintyVoxel :=
    { toClassVoxel := merged, uncertainty_value := voxel_B.uncertainty_value }
  if ¬voxel_B'.is_gt = true then
    { voxel_B' with
      uncertainty_value :=
        (voxel_B'.uncertainty_value + voxel_A.uncertainty_value) / 2 }
  else voxel_B'

/-- Modelled from the spec: a `Block` is a fixed-capacity ordered sequence of
voxels (`num_voxels_`); only its serialization members are in the sources, so
the grid geometry is omitted and the voxel storage is a list whose length is
the declared capacity. -/
structure ClassBlock where
  num_voxels : Nat
  voxels : List ClassVoxel

/-- Embedding of `Block<ClassVoxel>::serializeToIntegers`: concatenate every
voxel's codec output in storage order; a codec failure on any voxel fails the
whole serialization. -/
def serializeToIntegers (b : ClassBlock) : Option (List Nat) :=
  (b.voxels.mapM convertVoxelToInt32).map List.flatten

/-- Read loop of `Block<ClassVoxel>::deserializeFromIntegers`: runs while
voxels remain to fill and words remain to read, returning the final `data_idx`
together with the voxels read (`none` if a voxel read throws). -/
def deserLoop (data : List Nat) : Nat → Nat → Option (Nat × List ClassVoxel)
  | 0, d => some (d, [])
  | fuel + 1, d =>
    if d < data.length then
      match readVoxelFromInt32 data d with
      | none => none
      | some (v, d') => (deserLoop data fuel d').map (fun r => (r.1, v :: r.2))
    else some (d, [])

/-- Embedding of `Block<ClassVoxel>::deserializeFromIntegers`: after the read
loop the two `CHECK_EQ`s demand that exactly `num_voxels_` voxels were filled
and exactly all words consumed; any mismatch is a fatal failure (`none`). -/
def deserializeFromIntegers (b : ClassBlock) (data : List Nat) :
    Option (List ClassVoxel) :=
  match deserLoop data b.num_voxels 0 with
  | none => none
  | some (dEnd, vs) =>
    if vs.length = b.num_voxels ∧ dEnd = data.length then some vs else none

/-- Modelled from the spec: a `Submap` carries an immutable integer identifier
assigned at creation; nothing else about it matters to the collection code. -/
structure Submap where
  id : Int
  deriving Repr, DecidableEq

/-- Embedding of `panoptic_mapping::SubmapCollection` state: dense sub-map
storage plus the `id_to_index_` map (modelled as a function, point-wise
faithful to `std::map<int, size_t>`).  `next_id` models the fresh-identifier
generator of the `Submap` constructor (modelled from the spec: identifiers are
fresh at creation; the constructor itself is not in the sources). -/
structure SubmapCollection where
  submaps : List Submap
  id_to_index : Int → Option Nat
  next_id : Int

/-- Embedding of `SubmapCollection::addSubmap`: record
`id_to_index_[submap->getID()] = submaps_.size()` then append the sub-map. -/
def SubmapCollection.addSubmap (c : SubmapCollection) (s : Submap) :
    SubmapCollection :=
  { c with
    id_to_index := fun k =>
      if k = s.id then some c.submaps.length else c.id_to_index k,
    submaps := c.submaps ++ [s] }

/-- Embedding of `SubmapCollection::createSubmap`: append a freshly
constructed sub-map (fresh id from the constructor, modelled by `next_id`),
record `id -> size - 1`, and return it. -/
def SubmapCollection.createSubmap (c : SubmapCollection) :
    SubmapCollection × Submap :=
  let s : Submap := ⟨c.next_id⟩
  let submaps' := c.submaps ++ [s]
  ({ submaps := submaps',
     id_to_index := fun k =>
       if k = s.id then some (submaps'.length - 1) else c.id_to_index k,
     next_id := c.next_id + 1 }, s)

/-- Embedding of `SubmapCollection::removeSubmap`: `false` and no change for
an unknown id; otherwise erase the sub-map at its position, drop the id's
entry, and decrement every stored position greater than the erased one. -/
def SubmapCollection.removeSubmap (c : SubmapCollection) (id : Int) :
    Bool × SubmapCollection :=
  match c.id_to_index id with
  | none => (false, c)
  | some previous_index =>
    (true,
     { c with
       submaps := c.submaps.eraseIdx previous_index,
       id_to_index := fun k =>
         if k = id then none
         else (c.id_to_index k).map fun v =>
           if previous_index < v then v - 1 else v })

/-- Embedding of `SubmapCollection::submapIdExists`. -/
def SubmapCollection.submapIdExists (c : SubmapCollection) (id : Int) : Bool :=
  (c.id_to_index id).isSome

/-- Embedding of `SubmapCollection::clear`: drop all sub-maps and the index. -/
def SubmapCollection.clear (c : SubmapCollection) : SubmapCollection :=
  { c with submaps := [], id_to_index := fun _ => none }

/-- Operations of the collection claim: create, adopt an externally
constructed sub-map with a fresh id, remove, clear. -/
inductive CollectionOp where
  | create
  | add
  | remove (id : Int)
  | clear
  deriving Repr, DecidableEq

/-- One step of a collection operation sequence.  `add` adopts an externally
constructed sub-map; per the spec its identifier comes fresh from the same
`Submap` constructor, modelled by consuming `next_id`. -/
def applyOp (c : SubmapCollection) : CollectionOp → SubmapCollection
  | .create => (SubmapCollection.createSubmap c).1
  | .add =>
    SubmapCollection.addSubmap { c with next_id := c.next_id + 1 } ⟨c.next_id⟩
  | .remove id => (SubmapCollection.removeSubmap c id).2
  | .clear => SubmapCollection.clear c

/-- Empty collection with the identifier generator at 0. -/
def initialCollection : SubmapCollection := ⟨[], fun _ => none, 0⟩

/-- Run a sequence of collection operations from the empty collection. -/
def runOps (ops : List CollectionOp) : SubmapCollection :=
  ops.foldl applyOp initialCollection

/-! Basic facts about the max-heap model. -/

theorem pqMax_mem : ∀ {l : List (Nat × Nat)} {m : Nat × Nat},
    pqMax l = some m → m ∈ l := by
  intro l
  induction l with
  | nil => intro m h; simp [pqMax] at h
  | cons x xs ih =>
    intro m h
    simp only [pqMax] at h
    cases hx : pqMax xs with
    | none =>
      simp only [hx] at h
      injection h with h
      exact h ▸ List.mem_cons_self x xs
    | some m' =>
      simp only [hx] at h
      split at h
      · injection h with h
        exact h ▸ List.mem_cons_self x xs
      · injection h with h
        exact h ▸ List.mem_cons_of_mem _ (ih hx)

theorem pqMax_eq_none {l : List (Nat × Nat)} :
    pqMax l = none ↔ l = [] := by
  cases l with
  | nil => simp [pqMax]
  | cons x xs =>
    simp only [pqMax]
    cases pqMax xs with
    | none => simp
    | some m => by_cases h : pairLt m x <;> simp [h]

theorem popSeq_none_of_lt {n : Nat} :
    ∀ {l : List (Nat × Nat)}, l.length < n → popSeq n l = none := by
  induction n with
  | zero => intro l h; omega
  | succ n ih =>
    intro l h
    simp only [popSeq]
    cases hm : pqMax l with
    | none => rfl
    | some m =>
      have hmem := pqMax_mem hm
      have hlen : (l.erase m).length < n := by
        rw [List.length_erase_of_mem hmem]
        have : l ≠ [] := by rintro rfl; simp at hmem
        have : 0 < l.length := List.length_pos.mpr this
        omega
      simp [ih hlen]

/-!
C10 — encoding is not total for small non-zero class counts: for
`0 < counts.size() < TOP_N` the heap holds fewer than `TOP_N` elements, so
`get_top_n_elems` pops an empty heap and `convertVoxelToInt32` fails.
-/

/-- C10: for every voxel whose class count `C` satisfies `0 < C < TOP_N`,
`convertVoxelToInt32` reaches the error case: `get_top_n_elems` pushes only
`C` elements yet pops `TOP_N` times, reading the top of an empty heap, so the
encoding fails; encoding is well-defined only when `C = 0` or `C ≥ TOP_N`. -/
theorem C10_encode_fails_below_top_n (v : ClassVoxel)
    (h1 : 0 < v.counts.length) (h2 : v.counts.length < TOP_N) :
    convertVoxelToInt32 v = none := by
  have hlt : v.counts.length < 258 := by
    have : TOP_N = 3 := rfl
    omega
  have hne : v.counts.length ≠ 0 := by omega
  have hheap : (heapPairs v.counts).length < TOP_N := by
    simp only [heapPairs, List.length_map, List.length_range]
    have : v.counts.length % 256 = v.counts.length :=
      Nat.mod_eq_of_lt (by have : TOP_N = 3 := rfl; omega)
    omega
  have hpop : popSeq TOP_N (heapPairs v.counts) = none :=
    popSeq_none_of_lt hheap
  simp only [convertVoxelToInt32, hlt, if_true, hne, if_false,
    get_top_n_elems, hpop, Option.map_none']

/-- Witness for C10 at the concrete voxel with a single class count. -/
theorem C10_witness :
    0 < (ClassVoxel.mk [7] 0 0 0 false).counts.length ∧
    (ClassVoxel.mk [7] 0 0 0 false).counts.length < TOP_N ∧
    convertVoxelToInt32 (ClassVoxel.mk [7] 0 0 0 false) = none :=
  ⟨by decide, by decide,
    C10_encode_fails_below_top_n _ (by decide) (by decide)⟩

/-! Fusion lemmas shared by the fusion claims. -/

theorem merge_is_gt (A B : ClassVoxel) :
    (mergeVoxelAIntoVoxelB A B).is_gt = (B.is_gt || A.is_gt) := by
  unfold mergeVoxelAIntoVoxelB
  by_cases hg : A.is_gt = true <;> split <;> simp [hg]

theorem mergeUncertainty_base (A B : ClassUncertaintyVoxel) :
    (mergeUncertaintyVoxelAIntoVoxelB A B).toClassVoxel =
      mergeVoxelAIntoVoxelB A.toClassVoxel B.toClassVoxel := by
  unfold mergeUncertaintyVoxelAIntoVoxelB
  dsimp only
  split <;> rfl

/-!
C2 — fusion precedence for `ClassVoxel`: B adopts A's four assignment fields
exactly when A is ground truth, or A's belonging probability strictly exceeds
B's and B is not ground truth; otherwise those four fields are unchanged.
-/

/-- C2: `mergeVoxelAIntoVoxelB(A, &B)` sets B's `current_index`,
`foreign_count`, `belongs_count` and `counts` to A's values exactly when
`A.is_gt` holds or A's belonging probability strictly exceeds B's with B not
ground truth; in every other case those four fields keep B's values. -/
theorem C2_fusion_precedence (A B : ClassVoxel) :
    ((mergeVoxelAIntoVoxelB A B).current_index,
      (mergeVoxelAIntoVoxelB A B).foreign_count,
      (mergeVoxelAIntoVoxelB A B).belongs_count,
      (mergeVoxelAIntoVoxelB A B).counts) =
    if A.is_gt = true ∨ (classVoxelBelongingProbability A >
        classVoxelBelongingProbability B ∧ ¬B.is_gt = true) then
      (A.current_index, A.foreign_count, A.belongs_count, A.counts)
    else
      (B.current_index, B.foreign_count, B.belongs_count, B.counts) := by
  unfold mergeVoxelAIntoVoxelB
  dsimp only
  split_ifs with h1 h2 <;> simp_all

/-!
C6 — sticky, monotonic ground truth for both voxel variants.
-/

/-- C6: after any fusion (for both the `ClassVoxel` and the
`ClassUncertaintyVoxel` variants) the target's `is_gt` equals
`old is_gt OR A.is_gt`; in particular once the target is ground truth no
sequence of fusions ever clears the flag. -/
theorem C6_sticky_ground_truth :
    (∀ A B : ClassVoxel,
      (mergeVoxelAIntoVoxelB A B).is_gt = (B.is_gt || A.is_gt)) ∧
    (∀ A B : ClassUncertaintyVoxel,
      (mergeUncertaintyVoxelAIntoVoxelB A B).is_gt = (B.is_gt || A.is_gt)) ∧
    (∀ (As : List ClassVoxel) (B : ClassVoxel), B.is_gt = true →
      (As.foldl (fun b a => mergeVoxelAIntoVoxelB a b) B).is_gt = true) := by
  refine ⟨merge_is_gt, ?_, ?_⟩
  · intro A B
    have h := congrArg ClassVoxel.is_gt (mergeUncertainty_base A B)
    simpa [merge_is_gt] using h
  · intro As
    induction As with
    | nil => intro B h; simpa using h
    | cons a As ih =>
      intro B h
      simp only [List.foldl_cons]
      exact ih _ (by simp [merge_is_gt, h])

/-- Witness for C6's sequencing part at a concrete ground-truth voxel. -/
theorem C6_witness :
    ((ClassVoxel.mk [] 0 0 (-1) true).is_gt = true) ∧
    (([ClassVoxel.mk [] 5 0 0 false].foldl
        (fun b a => mergeVoxelAIntoVoxelB a b)
        (ClassVoxel.mk [] 0 0 (-1) true)).is_gt = true) :=
  ⟨by decide, C6_sticky_ground_truth.2.2 _ _ (by decide)⟩

/-!
C8 — uncertainty fusion: base merge first, then averaging exactly when the
merged target is not ground truth; the operation is not idempotent.
-/

/-- Concrete uncertainty voxel pair showing non-idempotence of fusion. -/
def uncertA : ClassUncertaintyVoxel := ⟨ClassVoxel.mk [] 0 0 (-1) false, 0⟩

/-- Fusion target for the non-idempotence part of C8. -/
def uncertB : ClassUncertaintyVoxel := ⟨ClassVoxel.mk [] 0 0 (-1) false, 1⟩

/-- C8: the uncertainty fusion performs the base `ClassVoxel` merge, then
replaces `uncertainty_value` by the mean of the prior values exactly when the
target is not ground truth after the base step (`B.is_gt || A.is_gt` false),
and fusing the same voxel twice can differ from fusing it once. -/
theorem C8_uncertainty_average :
    (∀ A B : ClassUncertaintyVoxel,
      (mergeUncertaintyVoxelAIntoVoxelB A B).toClassVoxel =
        mergeVoxelAIntoVoxelB A.toClassVoxel B.toClassVoxel ∧
      (mergeUncertaintyVoxelAIntoVoxelB A B).uncertainty_value =
        (if B.is_gt || A.is_gt then B.uncertainty_value
         else (B.uncertainty_value + A.uncertainty_value) / 2)) ∧
    (mergeUncertaintyVoxelAIntoVoxelB uncertA
        (mergeUncertaintyVoxelAIntoVoxelB uncertA uncertB)).uncertainty_value ≠
      (mergeUncertaintyVoxelAIntoVoxelB uncertA uncertB).uncertainty_value := by
  have base : ∀ A B : ClassUncertaintyVoxel,
      (mergeUncertaintyVoxelAIntoVoxelB A B).toClassVoxel =
        mergeVoxelAIntoVoxelB A.toClassVoxel B.toClassVoxel ∧
      (mergeUncertaintyVoxelAIntoVoxelB A B).uncertainty_value =
        (if B.is_gt || A.is_gt then B.uncertainty_value
         else (B.uncertainty_value + A.uncertainty_value) / 2) := by
    intro A B
    refine ⟨mergeUncertainty_base A B, ?_⟩
    unfold mergeUncertaintyVoxelAIntoVoxelB
    dsimp only
    have hgt : (mergeVoxelAIntoVoxelB A.toClassVoxel B.toClassVoxel).is_gt =
        (B.is_gt || A.is_gt) := merge_is_gt _ _
    by_cases h : (B.is_gt || A.is_gt) = true <;> simp [hgt, h]
  refine ⟨base, ?_⟩
  have hgt1 : (mergeUncertaintyVoxelAIntoVoxelB uncertA uncertB).is_gt =
      false := by
    have h := congrArg ClassVoxel.is_gt (base uncertA uncertB).1
    rw [merge_is_gt] at h
    simpa [uncertA, uncertB] using h
  have h1 := (base uncertA uncertB).2
  have h2 := (base uncertA (mergeUncertaintyVoxelAIntoVoxelB uncertA uncertB)).2
  rw [h2, h1, hgt1]
  simp only [uncertA, uncertB, Bool.false_or, Bool.or_false]
  norm_num

/-!
C7 — `removeSubmap` on an unknown id is a boolean-reported no-op; on a
present id it erases the sub-map, drops the id and decrements the greater
positions.
-/

/-- C7: for an absent id `removeSubmap` returns `false` and leaves the
collection untouched; for an id stored at position `p` it returns `true`,
erases position `p` from storage, removes the id's entry, and decrements
every other id's stored position that was greater than `p`. -/
theorem C7_removeSubmap_contract (c : SubmapCollection) (id : Int) :
    (c.id_to_index id = none →
      SubmapCollection.removeSubmap c id = (false, c)) ∧
    (∀ p, c.id_to_index id = some p →
      SubmapCollection.removeSubmap c id =
        (true,
         { c with
           submaps := c.submaps.eraseIdx p,
           id_to_index := fun k =>
             if k = id then none
             else (c.id_to_index k).map fun v =>
               if p < v then v - 1 else v })) := by
  constructor
  · intro h
    simp [SubmapCollection.removeSubmap, h]
  · intro p h
    simp [SubmapCollection.removeSubmap, h]

/-- Concrete collection for the C7 witness: three sub-maps with ids 0, 1, 2
at positions 0, 1, 2. -/
def threeSubmaps : SubmapCollection :=
  runOps [CollectionOp.create, CollectionOp.create, CollectionOp.create]

/-- Witness for C7: removing the absent id 5 is a reported no-op, and
removing id 1 erases position 1 and shifts the greater positions down. -/
theorem C7_witness :
    SubmapCollection.removeSubmap threeSubmaps 5 = (false, threeSubmaps) ∧
    SubmapCollection.removeSubmap threeSubmaps 1 =
      (true,
       { threeSubmaps with
         submaps := threeSubmaps.submaps.eraseIdx 1,
         id_to_index := fun k =>
           if k = 1 then none
           else (threeSubmaps.id_to_index k).map fun v =>
             if 1 < v then v - 1 else v }) :=
  ⟨(C7_removeSubmap_contract threeSubmaps 5).1 rfl,
   (C7_removeSubmap_contract threeSubmaps 1).2 1 rfl⟩

/-!
C4 — collection density: after any operation sequence the id-to-index map is
a bijection from the live ids onto the dense storage positions, each id
mapping to the position actually holding its sub-map.
-/

/-- Density/bijection invariant: `id_to_index` sends `k` to `v` exactly when
position `v` of the dense storage holds a sub-map with identifier `k`. -/
@[reducible] def GoodState (c : SubmapCollection) : Prop :=
  ∀ k v, c.id_to_index k = some v ↔
    ∃ s, c.submaps[v]? = some s ∧ s.id = k

/-- Freshness invariant for the identifier generator. -/
@[reducible] def FreshIds (c : SubmapCollection) : Prop :=
  ∀ s ∈ c.submaps, s.id < c.next_id

theorem mem_of_getElem_opt {l : List Submap} {v : Nat} {t : Submap}
    (h : l[v]? = some t) : t ∈ l := by
  obtain ⟨hv, he⟩ := List.getElem?_eq_some_iff.mp h
  exact he ▸ List.getElem_mem hv

theorem getElem?_append_single (l : List Submap) (s : Submap) (v : Nat) :
    (l ++ [s])[v]? =
      if v < l.length then l[v]?
      else if v = l.length then some s else none := by
  by_cases h1 : v < l.length
  · rw [List.getElem?_append_left h1, if_pos h1]
  · rw [if_neg h1]
    by_cases h2 : v = l.length
    · subst h2
      simp [List.getElem?_concat_length]
    · rw [if_neg h2, List.getElem?_eq_none]
      · simp [List.length_append]
        omega

/-- Appending a sub-map with an unused identifier and recording its position
preserves the density invariant. -/
theorem goodState_append (c : SubmapCollection) (hg : GoodState c)
    (s : Submap) (hfresh : ∀ t ∈ c.submaps, t.id ≠ s.id)
    (f' : Int → Option Nat)
    (hf' : ∀ k, f' k =
      if k = s.id then some c.submaps.length else c.id_to_index k)
    (nid : Int) :
    GoodState ⟨c.submaps ++ [s], f', nid⟩ := by
  intro k v
  dsimp only
  rw [hf']
  simp only [getElem?_append_single]
  by_cases hk : k = s.id
  · subst hk
    rw [if_pos rfl]
    constructor
    · intro h
      injection h with h
      subst h
      refine ⟨s, ?_, rfl⟩
      rw [if_neg (by omega), if_pos rfl]
    · rintro ⟨t, ht, hid⟩
      by_cases h1 : v < c.submaps.length
      · rw [if_pos h1] at ht
        have : t ∈ c.submaps := mem_of_getElem_opt ht
        exact absurd hid (hfresh t this)
      · rw [if_neg h1] at ht
        by_cases h2 : v = c.submaps.length
        · rw [h2]
        · rw [if_neg h2] at ht; cases ht
  · rw [if_neg hk, hg k v]
    constructor
    · rintro ⟨t, ht, hid⟩
      have h1 : v < c.submaps.length := by
        by_contra hge
        rw [List.getElem?_eq_none (by omega)] at ht
        cases ht
      exact ⟨t, by rw [if_pos h1]; exact ht, hid⟩
    · rintro ⟨t, ht, hid⟩
      by_cases h1 : v < c.submaps.length
      · rw [if_pos h1] at ht
        exact ⟨t, ht, hid⟩
      · rw [if_neg h1] at ht
        by_cases h2 : v = c.submaps.length
        · rw [if_pos h2] at ht
          injection ht with ht
          subst ht
          exact absurd hid.symm hk
        · rw [if_neg h2] at ht; cases ht

/-- Every collection operation preserves density and identifier
freshness. -/
theorem inv_applyOp (c : SubmapCollection) (op : CollectionOp)
    (hg : GoodState c) (hf : FreshIds c) :
    GoodState (applyOp c op) ∧ FreshIds (applyOp c op) := by
  have hfresh : ∀ t ∈ c.submaps, t.id ≠ c.next_id := by
    intro t ht
    have := hf t ht
    omega
  cases op with
  | create =>
    constructor
    · refine goodState_append c hg ⟨c.next_id⟩ hfresh _ (fun k => ?_) _
      simp only [applyOp, SubmapCollection.createSubmap, List.length_append,
        List.length_cons, List.length_nil]
      rw [show c.submaps.length + (0 + 1) - 1 = c.submaps.length by omega]
    · intro s hs
      simp only [applyOp, SubmapCollection.createSubmap] at hs ⊢
      rcases List.mem_append.mp hs with h | h
      · have := hf s h; omega
      · simp at h; subst h; show c.next_id < c.next_id + 1; omega
  | add =>
    constructor
    · exact goodState_append c hg ⟨c.next_id⟩ hfresh _ (fun k => rfl) _
    · intro s hs
      simp only [applyOp, SubmapCollection.addSubmap] at hs ⊢
      rcases List.mem_append.mp hs with h | h
      · have := hf s h; omega
      · simp at h; subst h; show c.next_id < c.next_id + 1; omega
  | clear =>
    constructor
    · intro k v
      simp [applyOp, SubmapCollection.clear]
    · intro s hs
      simp [applyOp, SubmapCollection.clear] at hs
  | remove id =>
    simp only [applyOp, SubmapCollection.removeSubmap]
    cases hl : c.id_to_index id with
    | none => exact ⟨hg, hf⟩
    | some p =>
      dsimp only
      obtain ⟨sp, hsp, hspid⟩ := (hg id p).mp hl
      have hp : p < c.submaps.length := by
        by_contra hge
        rw [List.getElem?_eq_none (by omega)] at hsp
        cases hsp
      constructor
      · intro k v
        by_cases hk : k = id
        · subst hk
          simp only [if_pos rfl]
          constructor
          · intro h; cases h
          · rintro ⟨t, ht, hid⟩
            by_cases h1 : v < p
            · rw [List.getElem?_eraseIdx_of_lt _ _ _ h1] at ht
              have := (hg k v).mpr ⟨t, ht, hid⟩
              rw [hl] at this
              injection this with this
              omega
            · rw [List.getElem?_eraseIdx_of_ge _ _ _ (by omega)] at ht
              have := (hg k (v + 1)).mpr ⟨t, ht, hid⟩
              rw [hl] at this
              injection this with this
              omega
        · simp only [if_neg hk]
          constructor
          · intro h
            rcases hv0 : c.id_to_index k with _ | v0
            · rw [hv0] at h; cases h
            · rw [hv0] at h
              simp only [Option.map_some'] at h
              injection h with h
              obtain ⟨t, ht, hid⟩ := (hg k v0).mp hv0
              have hv0p : v0 ≠ p := by
                intro hEq
                rw [hEq, hsp] at ht
                injection ht with ht
                subst ht
                exact hk (hid.symm.trans hspid)
              by_cases h1 : p < v0
              · rw [if_pos h1] at h
                refine ⟨t, ?_, hid⟩
                rw [List.getElem?_eraseIdx_of_ge _ _ _ (by omega),
                  (show v + 1 = v0 by omega)]
                exact ht
              · rw [if_neg h1] at h
                subst h
                refine ⟨t, ?_, hid⟩
                rw [List.getElem?_eraseIdx_of_lt _ _ _ (by omega)]
                exact ht
          · rintro ⟨t, ht, hid⟩
            by_cases h1 : v < p
            · rw [List.getElem?_eraseIdx_of_lt _ _ _ h1] at ht
              have := (hg k v).mpr ⟨t, ht, hid⟩
              rw [this]
              simp only [Option.map_some']
              rw [if_neg (by omega)]
            · rw [List.getElem?_eraseIdx_of_ge _ _ _ (by omega)] at ht
              have := (hg k (v + 1)).mpr ⟨t, ht, hid⟩
              rw [this]
              simp only [Option.map_some']
              rw [if_pos (by omega)]
              simp
      · intro s hs
        exact hf s (List.mem_of_mem_eraseIdx hs)

/-- The invariant holds after any operation sequence from the empty
collection. -/
theorem inv_runOps (ops : List CollectionOp) :
    GoodState (runOps ops) ∧ FreshIds (runOps ops) := by
  suffices h : ∀ c, GoodState c → FreshIds c →
      GoodState (ops.foldl applyOp c) ∧ FreshIds (ops.foldl applyOp c) by
    refine h initialCollection ?_ ?_
    · intro k v
      simp [initialCollection]
    · intro s hs
      simp [initialCollection] at hs
  induction ops with
  | nil => intro c h1 h2; exact ⟨h1, h2⟩
  | cons op ops ih =>
    intro c h1 h2
    obtain ⟨h1', h2'⟩ := inv_applyOp c op h1 h2
    exact ih _ h1' h2'

/-- C4: after any sequence of create / add / remove / clear operations the
id-to-index map is a bijection from the live ids onto the dense storage
positions — `id_to_index k = some v` holds exactly when position `v` holds a
sub-map with id `k`, every position is hit — and `submapIdExists` answers
membership of the live ids. -/
theorem C4_collection_density (ops : List CollectionOp) :
    (∀ k v, (runOps ops).id_to_index k = some v ↔
      ∃ s, (runOps ops).submaps[v]? = some s ∧ s.id = k) ∧
    (∀ v, v < (runOps ops).submaps.length →
      ∃ k, (runOps ops).id_to_index k = some v) ∧
    (∀ id, SubmapCollection.submapIdExists (runOps ops) id = true ↔
      id ∈ (runOps ops).submaps.map Submap.id) := by
  obtain ⟨hg, -⟩ := inv_runOps ops
  refine ⟨hg, ?_, ?_⟩
  · intro v hv
    refine ⟨((runOps ops).submaps.get ⟨v, hv⟩).id,
      (hg _ v).mpr ⟨(runOps ops).submaps.get ⟨v, hv⟩, ?_, rfl⟩⟩
    rw [List.getElem?_eq_some_iff]
    exact ⟨hv, rfl⟩
  · intro id
    rw [SubmapCollection.submapIdExists, Option.isSome_iff_exists]
    constructor
    · rintro ⟨v, hv⟩
      obtain ⟨s, hs, hid⟩ := (hg id v).mp hv
      exact List.mem_map.mpr ⟨s, mem_of_getElem_opt hs, hid⟩
    · intro h
      obtain ⟨s, hs, hid⟩ := List.mem_map.mp h
      obtain ⟨v, hv⟩ := List.mem_iff_getElem?.mp hs
      exact ⟨v, (hg id v).mpr ⟨s, hv, hid⟩⟩

/-! Ordering facts about the heap model, used for the tie-break claim. -/

theorem pairLt_iff (a b : Nat × Nat) :
    pairLt a b = true ↔ a.1 < b.1 ∨ (a.1 = b.1 ∧ a.2 < b.2) := by
  simp [pairLt]

theorem pairLt_irrefl (a : Nat × Nat) : pairLt a a = false := by
  simp [pairLt]

theorem pairLt_trans {a b c : Nat × Nat} (h1 : pairLt a b = true)
    (h2 : pairLt b c = true) : pairLt a c = true := by
  rw [pairLt_iff] at h1 h2 ⊢
  omega

theorem pqMax_maximal : ∀ {l : List (Nat × Nat)} {m : Nat × Nat},
    pqMax l = some m → ∀ x ∈ l, pairLt m x = false := by
  intro l
  induction l with
  | nil => intro m h; simp [pqMax] at h
  | cons a xs ih =>
    intro m h x hx
    simp only [pqMax] at h
    cases hq : pqMax xs with
    | none =>
      simp only [hq] at h
      injection h with h
      subst h
      have hxs : xs = [] := pqMax_eq_none.mp hq
      subst hxs
      simp at hx
      subst hx
      exact pairLt_irrefl _
    | some m' =>
      simp only [hq] at h
      rcases List.mem_cons.mp hx with hxa | hxs
      · subst hxa
        split at h
        · injection h with h; subst h; exact pairLt_irrefl _
        · injection h with h
          subst h
          rename_i hlt
          simp only [Bool.not_eq_true] at hlt
          exact hlt
      · split at h
        · injection h with h
          subst h
          rename_i hlt
          have hmx := ih hq x hxs
          by_contra hax
          simp only [Bool.not_eq_false] at hax
          rw [pairLt_trans hlt hax] at hmx
          cases hmx
        · injection h with h
          subst h
          exact ih hq x hxs

theorem popSeq_mem : ∀ {n : Nat} {l ps : List (Nat × Nat)},
    popSeq n l = some ps → ∀ p ∈ ps, p ∈ l := by
  intro n
  induction n with
  | zero =>
    intro l ps h p hp
    simp only [popSeq] at h
    injection h with h
    subst h
    cases hp
  | succ n ih =>
    intro l ps h p hp
    simp only [popSeq] at h
    cases hq : pqMax l with
    | none => rw [hq] at h; cases h
    | some m =>
      simp only [hq] at h
      cases hrec : popSeq n (l.erase m) with
      | none => rw [hrec] at h; cases h
      | some ps' =>
        rw [hrec] at h
        simp only [Option.map_some'] at h
        injection h with h
        subst h
        rcases List.mem_cons.mp hp with hpm | hps
        · exact hpm ▸ pqMax_mem hq
        · exact List.mem_of_mem_erase (ih hrec p hps)

theorem popSeq_length : ∀ {n : Nat} {l ps : List (Nat × Nat)},
    popSeq n l = some ps → ps.length = n := by
  intro n
  induction n with
  | zero =>
    intro l ps h
    simp only [popSeq] at h
    injection h with h
    subst h
    rfl
  | succ n ih =>
    intro l ps h
    simp only [popSeq] at h
    cases hq : pqMax l with
    | none => rw [hq] at h; cases h
    | some m =>
      simp only [hq] at h
      cases hrec : popSeq n (l.erase m) with
      | none => rw [hrec] at h; cases h
      | some ps' =>
        rw [hrec] at h
        simp only [Option.map_some'] at h
        injection h with h
        subst h
        simp [ih hrec]

theorem popSeq_some_of_le : ∀ {n : Nat} {l : List (Nat × Nat)},
    n ≤ l.length → ∃ ps, popSeq n l = some ps := by
  intro n
  induction n with
  | zero => intro l _; exact ⟨[], rfl⟩
  | succ n ih =>
    intro l h
    have hne : l ≠ [] := by
      intro hnil; subst hnil; simp at h
    have hq : ∃ m, pqMax l = some m := by
      cases hqq : pqMax l with
      | none => exact absurd (pqMax_eq_none.mp hqq) hne
      | some m => exact ⟨m, rfl⟩
    obtain ⟨m, hm⟩ := hq
    have hlen : n ≤ (l.erase m).length := by
      rw [List.length_erase_of_mem (pqMax_mem hm)]
      have : 0 < l.length := List.length_pos.mpr hne
      omega
    obtain ⟨ps', hps'⟩ := ih hlen
    refine ⟨m :: ps', ?_⟩
    simp only [popSeq, hm, hps', Option.map_some']

theorem indexOf_cons_self_lawful {α : Type} [BEq α] [LawfulBEq α] (a : α)
    (l : List α) : (a :: l).indexOf a = 0 := by
  simp [List.indexOf_cons]

theorem indexOf_cons_ne_lawful {α : Type} [BEq α] [LawfulBEq α] (a b : α)
    (l : List α) (h : b ≠ a) : (b :: l).indexOf a = (l.indexOf a) + 1 := by
  have hb : (b == a) = false := beq_eq_false_iff_ne.mpr h
  simp [List.indexOf_cons, hb]

/-- The first occurrence of a pair's index in the projected index list sits
at the pair's own position, provided the projected list has no duplicates. -/
theorem indexOf_map_snd : ∀ (ps : List (Nat × Nat)),
    (ps.map Prod.snd).Nodup → ∀ p ∈ ps,
      (ps.map Prod.snd).indexOf p.2 = ps.indexOf p := by
  intro ps
  induction ps with
  | nil => intro _ p hp; cases hp
  | cons q rest ih =>
    intro hnd p hp
    simp only [List.map_cons] at hnd ⊢
    have hnd' : (rest.map Prod.snd).Nodup := hnd.of_cons
    rcases List.mem_cons.mp hp with hpq | hpr
    · subst hpq
      rw [indexOf_cons_self_lawful, indexOf_cons_self_lawful]
    · have hne : p ≠ q := by
        rintro rfl
        exact (List.nodup_cons.mp hnd).1 (List.mem_map.mpr ⟨p, hpr, rfl⟩)
      have hne2 : p.2 ≠ q.2 := by
        intro h2
        exact (List.nodup_cons.mp hnd).1 (h2 ▸ List.mem_map.mpr ⟨p, hpr, rfl⟩)
      rw [indexOf_cons_ne_lawful _ _ _ (Ne.symm hne2),
        indexOf_cons_ne_lawful _ _ _ (Ne.symm hne), ih hnd' p hpr]

theorem popSeq_nodup : ∀ {n : Nat} {l ps : List (Nat × Nat)},
    l.Nodup → popSeq n l = some ps → ps.Nodup := by
  intro n
  induction n with
  | zero =>
    intro l ps _ h
    simp only [popSeq] at h
    injection h with h
    subst h
    exact List.nodup_nil
  | succ n ih =>
    intro l ps hnd h
    simp only [popSeq] at h
    cases hq : pqMax l with
    | none => rw [hq] at h; cases h
    | some m =>
      simp only [hq] at h
      cases hrec : popSeq n (l.erase m) with
      | none => rw [hrec] at h; cases h
      | some ps' =>
        rw [hrec] at h
        simp only [Option.map_some'] at h
        injection h with h
        subst h
        refine List.nodup_cons.mpr ⟨?_, ih (hnd.erase m) hrec⟩
        intro hm
        have : m ∈ l.erase m := popSeq_mem hrec m hm
        exact (hnd.mem_erase_iff.mp this).1 rfl

/-- Pop order respects the pair ordering: on a duplicate-free heap, if a
popped element is strictly below another heap element, the larger one was
popped first. -/
theorem popSeq_before : ∀ {n : Nat} {l ps : List (Nat × Nat)},
    l.Nodup → popSeq n l = some ps → ∀ a b, a ∈ l → b ∈ l →
      pairLt a b = true → a ∈ ps →
      b ∈ ps ∧ ps.indexOf b < ps.indexOf a := by
  intro n
  induction n with
  | zero =>
    intro l ps _ h a b _ _ _ ha
    simp only [popSeq] at h
    injection h with h
    subst h
    cases ha
  | succ n ih =>
    intro l ps hnd h a b hal hbl hab haps
    simp only [popSeq] at h
    cases hq : pqMax l with
    | none => rw [hq] at h; cases h
    | some m =>
      simp only [hq] at h
      cases hrec : popSeq n (l.erase m) with
      | none => rw [hrec] at h; cases h
      | some ps' =>
        rw [hrec] at h
        simp only [Option.map_some'] at h
        injection h with h
        subst h
        have hanem : a ≠ m := by
          rintro rfl
          have := pqMax_maximal hq b hbl
          rw [hab] at this
          cases this
        have haps' : a ∈ ps' := by
          rcases List.mem_cons.mp haps with h' | h'
          · exact absurd h' hanem
          · exact h'
        by_cases hbm : b = m
        · subst hbm
          refine ⟨List.mem_cons_self _ _, ?_⟩
          rw [indexOf_cons_self_lawful, indexOf_cons_ne_lawful _ _ _ (Ne.symm hanem)]
          omega
        · have hae : a ∈ l.erase m := hnd.mem_erase_iff.mpr ⟨hanem, hal⟩
          have hbe : b ∈ l.erase m := hnd.mem_erase_iff.mpr ⟨hbm, hbl⟩
          obtain ⟨hbps', hord⟩ :=
            ih (hnd.erase m) hrec a b hae hbe hab haps'
          refine ⟨List.mem_cons_of_mem _ hbps', ?_⟩
          rw [indexOf_cons_ne_lawful _ _ _ (Ne.symm hbm),
            indexOf_cons_ne_lawful _ _ _ (Ne.symm hanem)]
          omega

/-! Facts about the heap contents for class-count lists shorter than 256. -/

theorem heapPairs_eq {counts : List Nat} (h : counts.length < 256) :
    heapPairs counts =
      (List.range counts.length).map (fun i => (counts.getD i 0, i)) := by
  rw [heapPairs, Nat.mod_eq_of_lt h]

theorem heapPairs_snd {counts : List Nat} (h : counts.length < 256) :
    (heapPairs counts).map Prod.snd = List.range counts.length := by
  rw [heapPairs_eq h, List.map_map,
    show (Prod.snd ∘ fun i => (counts.getD i 0, i)) = id from rfl, List.map_id]

theorem heapPairs_nodup {counts : List Nat} (h : counts.length < 256) :
    (heapPairs counts).Nodup :=
  List.Nodup.of_map Prod.snd (by rw [heapPairs_snd h]; exact List.nodup_range _)

theorem mem_heapPairs {counts : List Nat} (h : counts.length < 256)
    {p : Nat × Nat} :
    p ∈ heapPairs counts ↔
      p.2 < counts.length ∧ p.1 = counts.getD p.2 0 := by
  rw [heapPairs_eq h]
  constructor
  · intro hp
    obtain ⟨i, hi, he⟩ := List.mem_map.mp hp
    rw [List.mem_range] at hi
    rw [← he]
    exact ⟨hi, rfl⟩
  · rintro ⟨h1, h2⟩
    refine List.mem_map.mpr ⟨p.2, List.mem_range.mpr h1, ?_⟩
    rw [← h2]

/-!
C5 — tie-break in the top-K selection.  As stated the claim fails: the push
loop counter of `get_top_n_elems` is a `uint8_t`, so on an input with 256 or
more entries only the first `size % 256` classes ever reach the heap, and an
equal-count class with a high index can lose to a lower-indexed one.  For
counts sequences shorter than 256 entries the claimed tie-break holds.
-/

/-- Concrete input refuting C5 as stated: 300 classes, classes 10 and 299
have equal counts 5, yet class 10 is selected while class 299 is not (only
indices below `300 % 256 = 44` are pushed onto the heap). -/
def bigCounts : List Nat := ((List.replicate 300 0).set 10 5).set 299 5

set_option maxRecDepth 40000 in
/-- Counterexample to C5 as stated: on a counts sequence with at least
`TOP_N` entries, two classes (10 and 299) have equal counts but the class
with the higher original index is not selected at all, while the lower one
is. -/
theorem C5_counterexample :
    TOP_N ≤ bigCounts.length ∧ 10 < 299 ∧ 299 < bigCounts.length ∧
    bigCounts.getD 10 0 = bigCounts.getD 299 0 ∧
    get_top_n_elems bigCounts TOP_N = some ([10, 43, 42], [5, 0, 0]) ∧
    10 ∈ [10, 43, 42] ∧ ¬299 ∈ [10, 43, 42] := by
  refine ⟨by decide, by decide, by decide, by decide, by decide,
    by decide, by decide⟩

/-- C5 (amended: the counts sequence must also have fewer than 256 entries,
because the `uint8_t` push-loop counter drops all later classes): whenever
two classes have equal counts, the higher-indexed one is popped from the heap
first, hence selected whenever the lower-indexed one is, and placed earlier
in the selected output. -/
theorem C5_amended_tiebreak (counts : List Nat) (i j : Nat)
    (indices cnts : List Nat) (hlen : counts.length < 256) (hij : i < j)
    (hj : j < counts.length) (heq : counts.getD i 0 = counts.getD j 0)
    (hsel : get_top_n_elems counts TOP_N = some (indices, cnts))
    (hi : i ∈ indices) :
    j ∈ indices ∧ indices.indexOf j < indices.indexOf i := by
  rw [get_top_n_elems] at hsel
  cases hpop : popSeq TOP_N (heapPairs counts) with
  | none => rw [hpop] at hsel; cases hsel
  | some ps =>
    rw [hpop] at hsel
    simp only [Option.map_some'] at hsel
    injection hsel with hsel
    have hind : indices = ps.map Prod.snd := (congrArg Prod.fst hsel).symm
    subst hind
    have hsub : ∀ p ∈ ps, p ∈ heapPairs counts := popSeq_mem hpop
    have hndsnd : (ps.map Prod.snd).Nodup := by
      refine List.Nodup.map_on ?_ (popSeq_nodup (heapPairs_nodup hlen) hpop)
      intro p hp q hq h2
      have hp' := (mem_heapPairs hlen).mp (hsub p hp)
      have hq' := (mem_heapPairs hlen).mp (hsub q hq)
      have h1 : p.1 = q.1 := by rw [hp'.2, hq'.2, h2]
      exact Prod.ext h1 h2
    obtain ⟨a, haps, ha2⟩ := List.mem_map.mp hi
    have ha' := (mem_heapPairs hlen).mp (hsub a haps)
    have haeq : a = (counts.getD i 0, i) := by
      refine Prod.ext ?_ ha2
      rw [ha'.2, ha2]
    set b : Nat × Nat := (counts.getD j 0, j) with hb
    have hbmem : b ∈ heapPairs counts := (mem_heapPairs hlen).mpr ⟨hj, rfl⟩
    have hamem : a ∈ heapPairs counts := hsub a haps
    have hab : pairLt a b = true := by
      rw [pairLt_iff, haeq]
      exact Or.inr ⟨heq, hij⟩
    obtain ⟨hbps, hord⟩ := popSeq_before (heapPairs_nodup hlen) hpop a b
      hamem hbmem hab haps
    constructor
    · exact List.mem_map.mpr ⟨b, hbps, rfl⟩
    · have hia : (ps.map Prod.snd).indexOf i = ps.indexOf a := by
        rw [← ha2]
        exact indexOf_map_snd ps hndsnd a haps
      have hjb : (ps.map Prod.snd).indexOf j = ps.indexOf b :=
        indexOf_map_snd ps hndsnd b hbps
      rw [hia, hjb]
      exact hord

/-- Witness for the amended C5 at `counts = [5, 7, 5, 2]`: classes 0 and 2
tie at count 5; the selection is `[1, 2, 0]`, so class 2 is selected and
placed before class 0. -/
theorem C5_witness :
    2 ∈ [1, 2, 0] ∧
    ([1, 2, 0] : List Nat).indexOf 2 < ([1, 2, 0] : List Nat).indexOf 0 :=
  C5_amended_tiebreak [5, 7, 5, 2] 0 2 [1, 2, 0] [7, 5, 5] (by decide)
    (by decide) (by decide) (by decide) (by decide) (by decide)

/-- Witness for C4 after `[create, create, remove 0]`: the surviving id 1 sits
at position 0 and the removed id 0 no longer exists. -/
theorem C4_witness :
    (runOps [CollectionOp.create, CollectionOp.create,
      CollectionOp.remove 0]).id_to_index 1 = some 0 ∧
    SubmapCollection.submapIdExists
      (runOps [CollectionOp.create, CollectionOp.create,
        CollectionOp.remove 0]) 0 = false := by
  have h := C4_collection_density
    [CollectionOp.create, CollectionOp.create, CollectionOp.remove 0]
  constructor
  · exact (h.1 1 0).mpr ⟨⟨1⟩, rfl, rfl⟩
  · have h2 := h.2.2 0
    have hmem : ¬(0 : Int) ∈ (runOps [CollectionOp.create,
        CollectionOp.create, CollectionOp.remove 0]).submaps.map
        Submap.id := by decide
    have h3 : ¬SubmapCollection.submapIdExists
        (runOps [CollectionOp.create, CollectionOp.create,
          CollectionOp.remove 0]) 0 = true :=
      fun hb => hmem (h2.mp hb)
    simpa using h3

/-! Helper lemmas for the codec round-trip claims. -/

theorem at32_elem (pre l post : List Nat) (k w : Nat)
    (hk : l.get? k = some w) :
    at32 (pre ++ l ++ post) (pre.length + k) = some (w % 4294967296) := by
  rw [at32, List.append_assoc]
  rw [List.get?_eq_getElem?] at hk ⊢
  rw [List.getElem?_append_right (by omega), Nat.add_sub_cancel_left,
    List.getElem?_append_left (by exact (List.getElem?_eq_some_iff.mp hk).1),
    hk, Option.map_some']

theorem getD_replicate_zero (n j : Nat) :
    (List.replicate n (0 : Nat)).getD j 0 = 0 := by
  rw [List.getD_eq_getElem?_getD, List.getElem?_replicate]
  by_cases h : j < n <;> simp [h]

theorem getD_set_eq (l : List Nat) (i j v : Nat) :
    (l.set i v).getD j 0 =
      if i = j ∧ i < l.length then v else l.getD j 0 := by
  rw [List.getD_eq_getElem?_getD, List.getD_eq_getElem?_getD,
    List.getElem?_set]
  by_cases h1 : i = j
  · subst h1
    by_cases h2 : i < l.length
    · simp [h2]
    · simp [h2, List.getElem?_eq_none (show l.length ≤ i from by omega)]
  · simp [h1]

theorem mapM_range3 (f : Nat → Option Nat) (v0 v1 v2 : Nat)
    (h0 : f 0 = some v0) (h1 : f 1 = some v1) (h2 : f 2 = some v2) :
    (List.range 3).mapM f = some [v0, v1, v2] := by
  rw [show List.range 3 = [0, 1, 2] from rfl]
  simp only [List.mapM_cons, List.mapM_nil, h0, h1, h2, Option.pure_def,
    Option.bind_eq_bind, Option.some_bind]

theorem mapM_length {α β : Type} : ∀ (xs : List α) (f : α → Option β)
    (l : List β), xs.mapM f = some l → l.length = xs.length := by
  intro xs
  induction xs with
  | nil =>
    intro f l h
    simp only [List.mapM_nil, Option.pure_def] at h
    injection h with h
    subst h
    rfl
  | cons x xs ih =>
    intro f l h
    simp only [List.mapM_cons, Option.pure_def, Option.bind_eq_bind] at h
    cases hx : f x with
    | none => rw [hx] at h; simp at h
    | some y =>
      rw [hx] at h
      cases hrest : xs.mapM f with
      | none => rw [hrest] at h; simp at h
      | some l' =>
        rw [hrest] at h
        simp only [Option.some_bind] at h
        injection h with h
        subst h
        simp [ih f l' hrest]

theorem scatter_none : ∀ (pairs : List (Nat × Nat)) (base : List Nat),
    (∃ p ∈ pairs, base.length ≤ p.1) → scatterCounts base pairs = none := by
  intro pairs
  induction pairs with
  | nil =>
    intro base h
    obtain ⟨p, hp, -⟩ := h
    cases hp
  | cons q rest ih =>
    intro base h
    obtain ⟨p, hp, hge⟩ := h
    obtain ⟨i, c⟩ := q
    simp only [scatterCounts]
    by_cases hq : i < base.length
    · rw [if_pos hq]
      refine ih _ ⟨p, ?_, ?_⟩
      · rcases List.mem_cons.mp hp with hpq | hpr
        · exfalso
          rw [hpq] at hge
          simp at hge
          omega
        · exact hpr
      · rw [List.length_set]
        exact hge
    · rw [if_neg hq]

theorem mem_zip_left {α β : Type} : ∀ (l1 : List α) (l2 : List β) (a : α),
    a ∈ l1 → l1.length ≤ l2.length → ∃ b, (a, b) ∈ l1.zip l2 := by
  intro l1
  induction l1 with
  | nil => intro l2 a ha; cases ha
  | cons x xs ih =>
    intro l2 a ha hlen
    cases l2 with
    | nil => simp at hlen
    | cons y ys =>
      rcases List.mem_cons.mp ha with hax | haxs
      · exact ⟨y, by rw [hax]; exact List.mem_cons_self _ _⟩
      · obtain ⟨b, hb⟩ := ih ys a haxs (by simpa using hlen)
        exact ⟨b, List.mem_cons_of_mem _ hb⟩

/-! Packing lemmas: the concrete shape of the packed index and count words. -/

theorem pack8_eq (i0 i1 i2 : Nat) (h0 : i0 < 256) (h1 : i1 < 256)
    (h2 : i2 < 256) :
    convert_vector_to_uint32 [i0, i1, i2] 8 =
      [i0 + i1 * 256 + i2 * 65536] := by
  simp only [convert_vector_to_uint32, packWords]
  norm_num
  omega

theorem pack16_eq (c0 c1 c2 : Nat) (h0 : c0 < 65536) (h1 : c1 < 65536)
    (h2 : c2 < 65536) :
    convert_vector_to_uint32 [c0, c1, c2] 16 =
      [c0 + c1 * 65536, c2] := by
  simp only [convert_vector_to_uint32, packWords]
  norm_num
  constructor
  · omega
  · omega

/-! Structure of a successful top-K selection and of a successful encode. -/

theorem get_top_spec {counts : List Nat} (hC : TOP_N ≤ counts.length)
    (hlen : counts.length < 256) :
    ∃ i0 i1 i2 : Nat,
      get_top_n_elems counts TOP_N =
        some ([i0, i1, i2],
          [counts.getD i0 0, counts.getD i1 0, counts.getD i2 0]) ∧
      i0 < counts.length ∧ i1 < counts.length ∧ i2 < counts.length ∧
      i0 ≠ i1 ∧ i0 ≠ i2 ∧ i1 ≠ i2 ∧ topIndices counts = [i0, i1, i2] := by
  have hhp : TOP_N ≤ (heapPairs counts).length := by
    rw [heapPairs_eq hlen, List.length_map, List.length_range]
    exact hC
  obtain ⟨ps, hps⟩ := popSeq_some_of_le hhp
  have hlen3 : ps.length = TOP_N := popSeq_length hps
  have hmem : ∀ p ∈ ps, p ∈ heapPairs counts := popSeq_mem hps
  have hnd : ps.Nodup := popSeq_nodup (heapPairs_nodup hlen) hps
  obtain ⟨p0, p1, p2, hps_eq⟩ : ∃ p0 p1 p2, ps = [p0, p1, p2] := by
    match ps, hlen3 with
    | [p0, p1, p2], _ => exact ⟨p0, p1, p2, rfl⟩
  subst hps_eq
  have h0 := (mem_heapPairs hlen).mp (hmem p0 (by simp))
  have h1 := (mem_heapPairs hlen).mp (hmem p1 (by simp))
  have h2 := (mem_heapPairs hlen).mp (hmem p2 (by simp))
  have hp0 : p0 = (counts.getD p0.2 0, p0.2) := Prod.ext h0.2 rfl
  have hp1 : p1 = (counts.getD p1.2 0, p1.2) := Prod.ext h1.2 rfl
  have hp2 : p2 = (counts.getD p2.2 0, p2.2) := Prod.ext h2.2 rfl
  have hne01 : p0 ≠ p1 := by
    intro h; rw [h] at hnd; simp at hnd
  have hne02 : p0 ≠ p2 := by
    intro h; rw [h] at hnd; simp at hnd
  have hne12 : p1 ≠ p2 := by
    intro h; rw [h] at hnd; simp at hnd
  refine ⟨p0.2, p1.2, p2.2, ?_, h0.1, h1.1, h2.1, ?_, ?_, ?_, ?_⟩
  · rw [get_top_n_elems, hps, Option.map_some']
    rw [← h0.2, ← h1.2, ← h2.2]
    rfl
  · intro h; exact hne01 (Prod.ext (by rw [h0.2, h1.2, h]) h)
  · intro h; exact hne02 (Prod.ext (by rw [h0.2, h2.2, h]) h)
  · intro h; exact hne12 (Prod.ext (by rw [h1.2, h2.2, h]) h)
  · rw [topIndices, get_top_n_elems, hps, Option.map_some']
    rfl

theorem encode_some_classes {v : ClassVoxel} {e : List Nat}
    (h : convertVoxelToInt32 v = some e) :
    v.counts.length = 0 ∨
      (TOP_N ≤ v.counts.length ∧ v.counts.length < 256) := by
  by_contra hcon
  push_neg at hcon
  obtain ⟨hne, hbad⟩ := hcon
  by_cases h258 : v.counts.length < 258
  · have hheap : (heapPairs v.counts).length < TOP_N := by
      rw [heapPairs, List.length_map, List.length_range]
      by_cases hlt : v.counts.length < 256
      · rw [Nat.mod_eq_of_lt hlt]
        by_contra hh
        exact absurd (hbad (by omega)) (by omega)
      · have : v.counts.length % 256 = v.counts.length - 256 := by omega
        rw [this]
        have : TOP_N = 3 := rfl
        omega
    have hpop : popSeq TOP_N (heapPairs v.counts) = none :=
      popSeq_none_of_lt hheap
    rw [convertVoxelToInt32] at h
    simp only [h258, if_true, hne, if_false, get_top_n_elems, hpop,
      Option.map_none'] at h
    cases h
  · rw [convertVoxelToInt32] at h
    simp only [h258, if_false] at h
    cases h

theorem encode_eq_of_classes {v : ClassVoxel} (hC : TOP_N ≤ v.counts.length)
    (hlen : v.counts.length < 256) :
    ∃ i0 i1 i2 : Nat,
      topIndices v.counts = [i0, i1, i2] ∧
      i0 < v.counts.length ∧ i1 < v.counts.length ∧ i2 < v.counts.length ∧
      i0 ≠ i1 ∧ i0 ≠ i2 ∧ i1 ≠ i2 ∧
      ((∀ c ∈ v.counts, c < 65536) →
        convertVoxelToInt32 v = some
          [v.counts.length,
           v.belongs_count % 65536 + (v.foreign_count % 65536) * 65536,
           (if v.is_gt then 1 else 0) +
             (v.current_index % 65536).toNat * 65536,
           i0 + i1 * 256 + i2 * 65536,
           v.counts.getD i0 0 + v.counts.getD i1 0 * 65536,
           v.counts.getD i2 0]) := by
  obtain ⟨i0, i1, i2, hsel, hl0, hl1, hl2, hne01, hne02, hne12, htop⟩ :=
    get_top_spec hC hlen
  refine ⟨i0, i1, i2, htop, hl0, hl1, hl2, hne01, hne02, hne12, ?_⟩
  intro hcnt
  have hcd : ∀ i, i < v.counts.length → v.counts.getD i 0 < 65536 := by
    intro i hi
    have : v.counts.getD i 0 ∈ v.counts := by
      rw [List.getD_eq_getElem?_getD, List.getElem?_eq_getElem hi]
      exact List.getElem_mem hi
    exact hcnt _ this
  rw [convertVoxelToInt32]
  simp only [if_pos (show v.counts.length < 258 by omega),
    if_neg (show ¬v.counts.length = 0 by omega), hsel]
  rw [pack8_eq i0 i1 i2 (by omega) (by omega) (by omega),
    show COUNTER_SIZE_BITS = 16 from rfl,
    pack16_eq _ _ _ (hcd i0 hl0) (hcd i1 hl1) (hcd i2 hl2)]
  rfl

/-! Field-extraction arithmetic for the packed words. -/

theorem w1_self (b f : Nat) :
    (b % 65536 + (f % 65536) * 65536) % 4294967296 =
      b % 65536 + (f % 65536) * 65536 := by
  omega

theorem w1_lo (b f : Nat) :
    ((b % 65536 + (f % 65536) * 65536) % 65536) % 256 = b % 65536 % 256 := by
  omega

theorem w1_hi (b f : Nat) :
    (((b % 65536 + (f % 65536) * 65536) >>> 16) % 65536) % 256 =
      f % 65536 % 256 := by
  rw [Nat.shiftRight_eq_div_pow]
  norm_num
  omega

theorem w2_self (gt : Bool) (ci : Int) :
    ((if gt then 1 else 0) + (ci % 65536).toNat * 65536) % 4294967296 =
      (if gt then 1 else 0) + (ci % 65536).toNat * 65536 := by
  cases gt <;> simp <;> omega

theorem w2_gt (gt : Bool) (ci : Int) :
    (((if gt then 1 else 0) + (ci % 65536).toNat * 65536) % 65536 != 0) =
      gt := by
  cases gt
  · show ((0 + (ci % 65536).toNat * 65536) % 65536 != 0) = false
    rw [show (0 + (ci % 65536).toNat * 65536) % 65536 = 0 by omega]
    rfl
  · show ((1 + (ci % 65536).toNat * 65536) % 65536 != 0) = true
    rw [show (1 + (ci % 65536).toNat * 65536) % 65536 = 1 by omega]
    rfl

theorem w2_hi (gt : Bool) (ci : Int) :
    ((((if gt then 1 else 0) + (ci % 65536).toNat * 65536) >>> 16) % 65536)
        % 256 = (ci % 65536).toNat % 256 := by
  rw [Nat.shiftRight_eq_div_pow]
  norm_num
  cases gt <;> simp <;> omega

theorem wIdx_ext0 (i0 i1 i2 : Nat) (h0 : i0 < 256) (h1 : i1 < 256)
    (h2 : i2 < 256) :
    ((i0 + i1 * 256 + i2 * 65536) % 4294967296) % 256 = i0 := by
  omega

theorem wIdx_ext1 (i0 i1 i2 : Nat) (h0 : i0 < 256) (h1 : i1 < 256)
    (h2 : i2 < 256) :
    (((i0 + i1 * 256 + i2 * 65536) % 4294967296) >>> 8) % 256 = i1 := by
  rw [Nat.shiftRight_eq_div_pow]
  norm_num
  omega

theorem wIdx_ext2 (i0 i1 i2 : Nat) (h0 : i0 < 256) (h1 : i1 < 256)
    (h2 : i2 < 256) :
    (((i0 + i1 * 256 + i2 * 65536) % 4294967296) >>> 16) % 256 = i2 := by
  rw [Nat.shiftRight_eq_div_pow]
  norm_num
  omega

theorem wCnt_ext0 (c0 c1 : Nat) (h0 : c0 < 65536) (h1 : c1 < 65536) :
    ((c0 + c1 * 65536) % 4294967296) % 65536 = c0 := by
  omega

theorem wCnt_ext1 (c0 c1 : Nat) (h0 : c0 < 65536) (h1 : c1 < 65536) :
    (((c0 + c1 * 65536) % 4294967296) >>> 16) % 65536 = c1 := by
  rw [Nat.shiftRight_eq_div_pow]
  norm_num
  omega

/-! Evaluation of the packed-field read loops on known words. -/

theorem readPacked8_eq (data : List Nat) (base w : Nat)
    (hw : at32 data base = some w) :
    readPacked data base 8 TOP_N =
      some [w % 256, (w >>> 8) % 256, (w >>> 16) % 256] := by
  rw [readPacked, show TOP_N = 3 from rfl]
  refine mapM_range3 _ _ _ _ ?_ ?_ ?_
  · show (at32 data (base + 0 / (32 / 8))).map
        (fun w => (w >>> (0 % (32 / 8) * 8)) % 2 ^ 8) = _
    rw [show base + 0 / (32 / 8) = base from rfl, hw, Option.map_some']
    norm_num
  · show (at32 data (base + 1 / (32 / 8))).map
        (fun w => (w >>> (1 % (32 / 8) * 8)) % 2 ^ 8) = _
    rw [show base + 1 / (32 / 8) = base from rfl, hw, Option.map_some']
    norm_num
  · show (at32 data (base + 2 / (32 / 8))).map
        (fun w => (w >>> (2 % (32 / 8) * 8)) % 2 ^ 8) = _
    rw [show base + 2 / (32 / 8) = base from rfl, hw, Option.map_some']
    norm_num

theorem readPacked16_eq (data : List Nat) (base w4 w5 : Nat)
    (hw4 : at32 data base = some w4) (hw5 : at32 data (base + 1) = some w5) :
    readPacked data base 16 TOP_N =
      some [w4 % 65536, (w4 >>> 16) % 65536, w5 % 65536] := by
  rw [readPacked, show TOP_N = 3 from rfl]
  refine mapM_range3 _ _ _ _ ?_ ?_ ?_
  · show (at32 data (base + 0 / (32 / 16))).map
        (fun w => (w >>> (0 % (32 / 16) * 16)) % 2 ^ 16) = _
    rw [show base + 0 / (32 / 16) = base from rfl, hw4, Option.map_some']
    norm_num
  · show (at32 data (base + 1 / (32 / 16))).map
        (fun w => (w >>> (1 % (32 / 16) * 16)) % 2 ^ 16) = _
    rw [show base + 1 / (32 / 16) = base from rfl, hw4, Option.map_some']
    norm_num
  · show (at32 data (base + 2 / (32 / 16))).map
        (fun w => (w >>> (2 % (32 / 16) * 16)) % 2 ^ 16) = _
    rw [show base + 2 / (32 / 16) = base + 1 from rfl, hw5, Option.map_some']
    norm_num

/-- Decoding the three header words of a class-free voxel (class count 0)
reconstructs the truncated header fields, consuming exactly three words. -/
theorem readVoxel_header (pre post : List Nat) (b f : Nat) (gt : Bool)
    (ci : Int) :
    readVoxelFromInt32
      (pre ++ [0, b % 65536 + (f % 65536) * 65536,
        (if gt then 1 else 0) + (ci % 65536).toNat * 65536] ++ post)
      pre.length =
    some (ClassVoxel.mk [] (b % 65536 % 256) (f % 65536 % 256) (-1) gt,
      pre.length + 3) := by
  have h0 := at32_elem pre [0, b % 65536 + (f % 65536) * 65536,
    (if gt then 1 else 0) + (ci % 65536).toNat * 65536] post 0 _ rfl
  have h1 := at32_elem pre [0, b % 65536 + (f % 65536) * 65536,
    (if gt then 1 else 0) + (ci % 65536).toNat * 65536] post 1 _ rfl
  have h2 := at32_elem pre [0, b % 65536 + (f % 65536) * 65536,
    (if gt then 1 else 0) + (ci % 65536).toNat * 65536] post 2 _ rfl
  rw [Nat.add_zero] at h0
  rw [readVoxelFromInt32]
  rw [h0, h1, h2]
  simp only [Option.bind_eq_bind, Option.some_bind]
  rw [if_pos trivial, w1_self, w2_self, w1_lo, w1_hi, w2_gt]
  rfl

theorem getD_lt_of_forall {l : List Nat} (h : ∀ c ∈ l, c < 65536) {i : Nat}
    (hi : i < l.length) : l.getD i 0 < 65536 := by
  refine h _ ?_
  rw [List.getD_eq_getElem?_getD, List.getElem?_eq_getElem hi]
  exact List.getElem_mem hi

theorem scatter3_eq (C i0 i1 i2 c0 c1 c2 : Nat) (h0 : i0 < C) (h1 : i1 < C)
    (h2 : i2 < C) :
    scatterCounts (List.replicate C 0) [(i0, c0), (i1, c1), (i2, c2)] =
      some ((((List.replicate C 0).set i0 c0).set i1 c1).set i2 c2) := by
  simp only [scatterCounts, List.length_set, List.length_replicate]
  rw [if_pos h0, if_pos h1, if_pos h2]

/-- Decoding the six words produced by encoding a voxel with `TOP_N ≤ C <
256` classes succeeds, consumes exactly six words, reproduces the truncated
header fields and scatters the selected top counts, zeroing the rest. -/
theorem readVoxel_encode_pos (v : ClassVoxel) (pre post : List Nat)
    (hC : TOP_N ≤ v.counts.length) (hlen : v.counts.length < 256)
    (hcnt : ∀ c ∈ v.counts, c < 65536) :
    ∃ e v', convertVoxelToInt32 v = some e ∧ e.length = 6 ∧
      readVoxelFromInt32 (pre ++ e ++ post) pre.length =
        some (v', pre.length + 6) ∧
      v'.belongs_count = v.belongs_count % 65536 % 256 ∧
      v'.foreign_count = v.foreign_count % 65536 % 256 ∧
      v'.is_gt = v.is_gt ∧
      v'.current_index = (((v.current_index % 65536).toNat % 256 : Nat) : Int) ∧
      v'.counts.length = v.counts.length ∧
      ∀ j, v'.counts.getD j 0 =
        if j ∈ topIndices v.counts then v.counts.getD j 0 else 0 := by
  obtain ⟨i0, i1, i2, htop, hl0, hl1, hl2, hne01, hne02, hne12, hencf⟩ :=
    encode_eq_of_classes hC hlen
  have henc := hencf hcnt
  have hc0 : v.counts.getD i0 0 < 65536 := getD_lt_of_forall hcnt hl0
  have hc1 : v.counts.getD i1 0 < 65536 := getD_lt_of_forall hcnt hl1
  have hc2 : v.counts.getD i2 0 < 65536 := getD_lt_of_forall hcnt hl2
  set e : List Nat := [v.counts.length,
    v.belongs_count % 65536 + (v.foreign_count % 65536) * 65536,
    (if v.is_gt then 1 else 0) + (v.current_index % 65536).toNat * 65536,
    i0 + i1 * 256 + i2 * 65536,
    v.counts.getD i0 0 + v.counts.getD i1 0 * 65536,
    v.counts.getD i2 0] with he
  have h0 := at32_elem pre e post 0 _ rfl
  have h1 := at32_elem pre e post 1 _ rfl
  have h2 := at32_elem pre e post 2 _ rfl
  have h3 := at32_elem pre e post 3 _ rfl
  have h4 := at32_elem pre e post 4 _ rfl
  have h5 := at32_elem pre e post 5 _ rfl
  rw [Nat.add_zero] at h0
  rw [Nat.mod_eq_of_lt (show v.counts.length < 4294967296 by omega)] at h0
  rw [Nat.mod_eq_of_lt (show v.counts.getD i2 0 < 4294967296 by omega)] at h5
  have hread : readVoxelFromInt32 (pre ++ e ++ post) pre.length =
      some (ClassVoxel.mk
        ((((List.replicate v.counts.length 0).set i0
            (v.counts.getD i0 0)).set i1 (v.counts.getD i1 0)).set i2
            (v.counts.getD i2 0))
        (v.belongs_count % 65536 % 256) (v.foreign_count % 65536 % 256)
        (((v.current_index % 65536).toNat % 256 : Nat) : Int) v.is_gt,
      pre.length + 6) := by
    rw [readVoxelFromInt32, h0, h1, h2]
    simp only [Option.bind_eq_bind, Option.some_bind]
    rw [if_neg (show ¬v.counts.length = 0 by omega)]
    rw [readPacked8_eq _ _ _ h3]
    simp only [Option.some_bind]
    rw [wIdx_ext0 i0 i1 i2 (by omega) (by omega) (by omega),
      wIdx_ext1 i0 i1 i2 (by omega) (by omega) (by omega),
      wIdx_ext2 i0 i1 i2 (by omega) (by omega) (by omega)]
    rw [show (TOP_N + 3) / 4 = 1 from rfl,
      show COUNTER_SIZE_BITS = 16 from rfl,
      show pre.length + 3 + 1 = pre.length + 4 by omega]
    rw [readPacked16_eq _ _ _ _ h4 (by
      rw [show pre.length + 4 + 1 = pre.length + 5 by omega]; exact h5)]
    simp only [Option.some_bind]
    rw [wCnt_ext0 _ _ hc0 hc1, wCnt_ext1 _ _ hc0 hc1,
      Nat.mod_eq_of_lt hc2]
    rw [show [i0, i1, i2].zip [v.counts.getD i0 0, v.counts.getD i1 0,
      v.counts.getD i2 0] = [(i0, v.counts.getD i0 0),
      (i1, v.counts.getD i1 0), (i2, v.counts.getD i2 0)] from rfl]
    rw [scatter3_eq _ _ _ _ _ _ _ hl0 hl1 hl2]
    simp only [Option.some_bind]
    rw [show (TOP_N + 32 / 16 - 1) / (32 / 16) = 2 from rfl,
      show pre.length + 4 + 2 = pre.length + 6 by omega]
    rw [w1_self, w2_self, w1_lo, w1_hi, w2_gt, w2_hi]
    rfl
  refine ⟨e, _, henc, rfl, hread, rfl, rfl, rfl, rfl, ?_, ?_⟩
  · simp [List.length_set, List.length_replicate]
  · intro j
    rw [htop]
    simp only
    rw [getD_set_eq, getD_set_eq, getD_set_eq, getD_replicate_zero]
    simp only [List.length_set, List.length_replicate, hl0, hl1, hl2,
      and_true]
    by_cases hj2 : i2 = j
    · subst hj2
      simp [List.mem_cons]
    · rw [if_neg hj2]
      by_cases hj1 : i1 = j
      · subst hj1
        simp [List.mem_cons]
      · rw [if_neg hj1]
        by_cases hj0 : i0 = j
        · subst hj0
          simp [List.mem_cons]
        · rw [if_neg hj0, if_neg (by
            simp only [List.mem_cons, List.not_mem_nil, or_false]
            omega)]

/-!
C1 — voxel codec round-trip.  As stated the claim fails: the decoder narrows
`belongs_count`, `foreign_count` and `current_index` through
`static_cast<uint8_t>`, so 16-bit values of those fields come back reduced
modulo 256, and for class counts of 256 or 257 (allowed by `CHECK_LT(..,
258)`) the `uint8_t` push-loop counter leaves the heap with fewer than
`TOP_N` elements and encoding itself fails.  The round-trip holds once the
header fields are below 2^8 and the class count is 0 (with the sentinel
current index) or in `[TOP_N, 256)`.
-/

/-- Counterexample to C1 as stated: the voxel with `belongs_count = 256`
(fitting in 16 bits), no classes and sentinel index is valid for the claim,
yet decoding its encoding returns `belongs_count = 0`: the decoder truncates
the 16-bit field through `uint8_t`. -/
theorem C1_counterexample :
    ((256 : Nat) < 2 ^ 16) ∧
    (convertVoxelToInt32 (ClassVoxel.mk [] 256 0 (-1) false)).bind
        (fun e => readVoxelFromInt32 e 0) =
      some (ClassVoxel.mk [] 0 0 (-1) false, 3) ∧
    (ClassVoxel.mk [] 0 0 (-1) false).belongs_count ≠
      (ClassVoxel.mk [] 256 0 (-1) false).belongs_count := by
  refine ⟨by decide, by decide, by decide⟩

/-- C1 (amended: the belongs/foreign counters and a non-sentinel
`current_index` must fit in 8 bits — the decoder narrows them through
`uint8_t` — and a non-zero class count must lie in `[TOP_N, 256)` because the
heap push loop truncates the size to `uint8_t`): decoding the encoding
reproduces `belongs_count`, `foreign_count`, `is_gt` and `current_index`
exactly, consumes exactly the produced words, and yields a counts sequence of
the original length carrying the top-`TOP_N` classes exactly with every other
class zeroed. -/
theorem C1_roundtrip_amended (v : ClassVoxel)
    (hb : v.belongs_count < 256) (hf : v.foreign_count < 256)
    (hcnt : ∀ c ∈ v.counts, c < 2 ^ COUNTER_SIZE_BITS)
    (hshape : (v.counts.length = 0 ∧ v.current_index = -1) ∨
      (TOP_N ≤ v.counts.length ∧ v.counts.length < 256 ∧
        0 ≤ v.current_index ∧ v.current_index < 256)) :
    ∃ e v', convertVoxelToInt32 v = some e ∧
      readVoxelFromInt32 e 0 = some (v', e.length) ∧
      v'.belongs_count = v.belongs_count ∧
      v'.foreign_count = v.foreign_count ∧
      v'.is_gt = v.is_gt ∧
      v'.current_index = v.current_index ∧
      v'.counts.length = v.counts.length ∧
      ∀ j, v'.counts.getD j 0 =
        if j ∈ topIndices v.counts then v.counts.getD j 0 else 0 := by
  have hcnt' : ∀ c ∈ v.counts, c < 65536 := by
    intro c hc
    have h1 := hcnt c hc
    have h2 : (2 : Nat) ^ COUNTER_SIZE_BITS = 65536 := rfl
    omega
  rcases hshape with ⟨hC0, hci⟩ | ⟨hCge, hClt, hci0, hci256⟩
  · have hnil : v.counts = [] := List.length_eq_zero.mp hC0
    have henc : convertVoxelToInt32 v = some
        [0, v.belongs_count % 65536 + (v.foreign_count % 65536) * 65536,
         (if v.is_gt then 1 else 0) +
           (v.current_index % 65536).toNat * 65536] := by
      rw [convertVoxelToInt32]
      simp [hC0]
    have hdr := readVoxel_header [] []
      v.belongs_count v.foreign_count v.is_gt v.current_index
    simp only [List.nil_append, List.append_nil, List.length_nil,
      Nat.zero_add] at hdr
    refine ⟨_, _, henc, hdr, ?_, ?_, rfl, hci.symm, ?_, ?_⟩
    · simp only
      omega
    · simp only
      omega
    · simp [hC0]
    · intro j
      rw [hnil]
      simp [show topIndices [] = [] from rfl]
  · obtain ⟨e, v', henc, hlen6, hread, hb', hf', hgt', hci', hlenc, hgetD⟩ :=
      readVoxel_encode_pos v [] [] hCge hClt hcnt'
    simp only [List.nil_append, List.append_nil, List.length_nil,
      Nat.zero_add] at hread
    refine ⟨e, v', henc, ?_, ?_, ?_, hgt', ?_, hlenc, hgetD⟩
    · rw [hlen6]
      exact hread
    · rw [hb']
      omega
    · rw [hf']
      omega
    · rw [hci']
      omega

/-- Witness for the amended C1 at the spec's concrete scenario
`counts = [5, 0, 9, 3]`, `belongs = 10`, `foreign = 2`, `current = 2`. -/
theorem C1_witness :
    ∃ e v', convertVoxelToInt32 (ClassVoxel.mk [5, 0, 9, 3] 10 2 2 false) =
        some e ∧
      readVoxelFromInt32 e 0 = some (v', e.length) ∧
      v'.belongs_count = (ClassVoxel.mk [5, 0, 9, 3] 10 2 2 false).belongs_count ∧
      v'.foreign_count = (ClassVoxel.mk [5, 0, 9, 3] 10 2 2 false).foreign_count ∧
      v'.is_gt = (ClassVoxel.mk [5, 0, 9, 3] 10 2 2 false).is_gt ∧
      v'.current_index = (ClassVoxel.mk [5, 0, 9, 3] 10 2 2 false).current_index ∧
      v'.counts.length = (ClassVoxel.mk [5, 0, 9, 3] 10 2 2 false).counts.length ∧
      ∀ j, v'.counts.getD j 0 =
        if j ∈ topIndices (ClassVoxel.mk [5, 0, 9, 3] 10 2 2 false).counts
        then (ClassVoxel.mk [5, 0, 9, 3] 10 2 2 false).counts.getD j 0
        else 0 :=
  C1_roundtrip_amended (ClassVoxel.mk [5, 0, 9, 3] 10 2 2 false)
    (by decide) (by decide) (by decide) (Or.inr (by refine ⟨?_, ?_, ?_, ?_⟩ <;> decide))

/-- Any successfully encoded voxel decodes from anywhere inside a word
stream, consuming exactly its own encoding. -/
theorem readVoxel_of_encode (v : ClassVoxel) (e pre post : List Nat)
    (henc : convertVoxelToInt32 v = some e)
    (hcnt : ∀ c ∈ v.counts, c < 65536) :
    ∃ v', 0 < e.length ∧
      readVoxelFromInt32 (pre ++ e ++ post) pre.length =
        some (v', pre.length + e.length) := by
  rcases encode_some_classes henc with hC0 | ⟨hCge, hClt⟩
  · have henc2 : convertVoxelToInt32 v = some
        [0, v.belongs_count % 65536 + (v.foreign_count % 65536) * 65536,
         (if v.is_gt then 1 else 0) +
           (v.current_index % 65536).toNat * 65536] := by
      rw [convertVoxelToInt32]
      simp [hC0]
    rw [henc] at henc2
    injection henc2 with henc2
    subst henc2
    exact ⟨_, by simp,
      readVoxel_header pre post v.belongs_count v.foreign_count
        v.is_gt v.current_index⟩
  · obtain ⟨e', v', henc', hlen6, hread, -⟩ :=
      readVoxel_encode_pos v pre post hCge hClt hcnt
    rw [henc] at henc'
    injection henc' with henc'
    subst henc'
    rw [hlen6]
    exact ⟨v', by omega, hread⟩

/-- Reading a concatenation of voxel encodings with the block read loop
consumes every word and fills exactly one voxel per encoding. -/
theorem deserLoop_encode : ∀ (vl : List ClassVoxel) (pre : List Nat)
    (L : List (List Nat)),
    vl.mapM convertVoxelToInt32 = some L →
    (∀ v ∈ vl, ∀ c ∈ v.counts, c < 65536) →
    ∃ ws, deserLoop (pre ++ L.flatten) vl.length pre.length =
        some (pre.length + L.flatten.length, ws) ∧ ws.length = vl.length := by
  intro vl
  induction vl with
  | nil =>
    intro pre L h _
    simp only [List.mapM_nil, Option.pure_def] at h
    injection h with h
    subst h
    exact ⟨[], rfl, rfl⟩
  | cons v vt ih =>
    intro pre L h hcnt
    simp only [List.mapM_cons, Option.pure_def, Option.bind_eq_bind] at h
    cases he : convertVoxelToInt32 v with
    | none => rw [he] at h; simp at h
    | some e =>
      rw [he] at h
      cases hrest : vt.mapM convertVoxelToInt32 with
      | none => rw [hrest] at h; simp at h
      | some L' =>
        rw [hrest] at h
        simp only [Option.some_bind] at h
        injection h with h
        subst h
        obtain ⟨v', hepos, hread⟩ := readVoxel_of_encode v e pre
          L'.flatten he (hcnt v (List.mem_cons_self _ _))
        obtain ⟨ws, hloop, hwlen⟩ := ih (pre ++ e) L' hrest
          (fun u hu => hcnt u (List.mem_cons_of_mem _ hu))
        refine ⟨v' :: ws, ?_, by simp [hwlen]⟩
        have hdata : pre ++ (e :: L').flatten = pre ++ e ++ L'.flatten := by
          rw [List.flatten_cons, List.append_assoc]
        rw [hdata]
        simp only [List.length_cons, deserLoop]
        rw [if_pos (by
          simp only [List.length_append]
          omega)]
        rw [hread]
        show (deserLoop (pre ++ e ++ L'.flatten) vt.length
            (pre.length + e.length)).map (fun r => (r.1, v' :: r.2)) =
          some (pre.length + (e :: L').flatten.length, v' :: ws)
        rw [show pre.length + e.length = (pre ++ e).length by
          simp [List.length_append]]
        rw [hloop, Option.map_some']
        rw [show (pre ++ e).length + L'.flatten.length =
          pre.length + (e :: L').flatten.length by
          simp only [List.length_append, List.flatten_cons]
          omega]

/-!
C3 — block stream consistency: decoding a serialized block consumes exactly
the whole word sequence and fills exactly `num_voxels_` voxels; a read loop
ending short on either side trips the `CHECK_EQ`s, a fatal failure rather
than a silent short read.
-/

/-- C3: (1) for a block whose voxels all satisfy the codec preconditions
(successful serialization, counters within the counter width), the read loop
of `deserializeFromIntegers` on the serialized words stops exactly at the end
of the stream having filled exactly `num_voxels_` voxels, and
`deserializeFromIntegers` succeeds; (2) whenever the read loop ends with
fewer than `num_voxels_` voxels filled or words left unconsumed,
`deserializeFromIntegers` fails fatally. -/
theorem C3_stream_consistency :
    (∀ (b : ClassBlock) (data : List Nat),
      b.voxels.length = b.num_voxels →
      (∀ v ∈ b.voxels, ∀ c ∈ v.counts, c < 2 ^ COUNTER_SIZE_BITS) →
      serializeToIntegers b = some data →
      ∃ vs, deserLoop data b.num_voxels 0 = some (data.length, vs) ∧
        vs.length = b.num_voxels ∧
        deserializeFromIntegers b data = some vs) ∧
    (∀ (b : ClassBlock) (data : List Nat) (dEnd : Nat)
        (vs : List ClassVoxel),
      deserLoop data b.num_voxels 0 = some (dEnd, vs) →
      vs.length < b.num_voxels ∨ dEnd < data.length →
      deserializeFromIntegers b data = none) := by
  constructor
  · intro b data hnum hcnt hser
    rw [serializeToIntegers] at hser
    cases hmap : b.voxels.mapM convertVoxelToInt32 with
    | none => rw [hmap] at hser; cases hser
    | some L =>
      rw [hmap, Option.map_some'] at hser
      injection hser with hser
      have hcnt' : ∀ v ∈ b.voxels, ∀ c ∈ v.counts, c < 65536 := by
        intro u hu c hc
        have h1 := hcnt u hu c hc
        have h2 : (2 : Nat) ^ COUNTER_SIZE_BITS = 65536 := rfl
        omega
      obtain ⟨ws, hloop, hwlen⟩ := deserLoop_encode b.voxels [] L hmap hcnt'
      simp only [List.nil_append, List.length_nil, Nat.zero_add] at hloop
      rw [hnum] at hloop hwlen
      subst hser
      refine ⟨ws, hloop, hwlen, ?_⟩
      rw [deserializeFromIntegers, hloop]
      show (if ws.length = b.num_voxels ∧
          L.flatten.length = L.flatten.length then some ws else none) =
        some ws
      rw [if_pos ⟨hwlen, rfl⟩]
  · intro b data dEnd vs hloop hshort
    rw [deserializeFromIntegers, hloop]
    show (if vs.length = b.num_voxels ∧ dEnd = data.length then some vs
        else none) = none
    rw [if_neg]
    rintro ⟨h1, h2⟩
    rcases hshort with h | h <;> omega

/-- Concrete two-voxel block for the C3 witness. -/
def witnessBlock : ClassBlock :=
  ⟨2, [ClassVoxel.mk [] 1 2 (-1) false, ClassVoxel.mk [5, 0, 9, 3] 10 2 2 false]⟩

/-- Word stream of `witnessBlock`. -/
def witnessData : List Nat :=
  [0, 131073, 4294901760, 4, 131082, 131072, 196610, 327689, 3]

/-- Witness for C3: the concrete block round-trips through the stream with
full consumption, and a three-word stream for a two-voxel block (read loop
ends with one voxel filled) is rejected. -/
theorem C3_witness :
    (∃ vs, deserLoop witnessData witnessBlock.num_voxels 0 =
        some (witnessData.length, vs) ∧
      vs.length = witnessBlock.num_voxels ∧
      deserializeFromIntegers witnessBlock witnessData = some vs) ∧
    deserializeFromIntegers witnessBlock [0, 5, 7] = none :=
  ⟨C3_stream_consistency.1 witnessBlock witnessData rfl (by decide)
      (by decide),
   C3_stream_consistency.2 witnessBlock [0, 5, 7] 3
      [ClassVoxel.mk [] 5 0 (-1) true] (by decide) (Or.inl (by decide))⟩

/-!
C9 — out-of-range decoded index.  The source performs no explicit comparison
of a decoded top-K class index against the class count, but the scatter write
goes through the checked access `voxel.counts.at(indices.at(i))`, which
throws on an out-of-range index: decoding such a word sequence fails instead
of scattering, so the claim's unguarded write does not occur.
-/

/-- Counterexample to C9 as stated: the word sequence `[1, 0, 0, 2, 0, 0]`
declares one class and decodes top-K index 2 ≥ 1, yet `readVoxelFromInt32`
does not scatter anything — the checked vector access makes the decode fail
(throw), so no unguarded write to the counts sequence happens. -/
theorem C9_counterexample :
    at32 [1, 0, 0, 2, 0, 0] 0 = some 1 ∧
    readPacked [1, 0, 0, 2, 0, 0] 3 8 TOP_N = some [2, 0, 0] ∧
    (1 : Nat) ≤ 2 ∧
    readVoxelFromInt32 [1, 0, 0, 2, 0, 0] 0 = none := by
  refine ⟨by decide, by decide, by decide, by decide⟩

/-- C9 (amended: the source has no explicit pre-write validation of the
decoded index against the class count, but the checked element access at the
scatter write aborts decoding): for every word sequence declaring `C > 0`
classes whose decoded top-K indices contain a value `≥ C`,
`readVoxelFromInt32` fails instead of completing the scatter. -/
theorem C9_out_of_range_fails (data : List Nat) (d C : Nat)
    (idxs : List Nat) (hC : at32 data d = some C) (hC0 : C ≠ 0)
    (hidx : readPacked data (d + 3) 8 TOP_N = some idxs)
    (hbad : ∃ i ∈ idxs, C ≤ i) :
    readVoxelFromInt32 data d = none := by
  rw [readVoxelFromInt32, hC]
  simp only [Option.bind_eq_bind, Option.some_bind]
  cases h1 : at32 data (d + 1) with
  | none => simp [h1]
  | some b1 =>
    cases h2 : at32 data (d + 2) with
    | none => simp [h1, h2]
    | some b2 =>
      simp only [h1, h2, Option.some_bind]
      rw [if_neg hC0, hidx]
      simp only [Option.some_bind]
      cases h3 : readPacked data (d + 3 + (TOP_N + 3) / 4)
          COUNTER_SIZE_BITS TOP_N with
      | none => simp [h3]
      | some cnts =>
        simp only [h3, Option.some_bind]
        have hlenc : cnts.length = TOP_N := by
          rw [readPacked] at h3
          have := mapM_length _ _ _ h3
          simpa using this
        have hleni : idxs.length = TOP_N := by
          rw [readPacked] at hidx
          have := mapM_length _ _ _ hidx
          simpa using this
        obtain ⟨i, hi, hge⟩ := hbad
        obtain ⟨c, hic⟩ := mem_zip_left idxs cnts i hi (by omega)
        rw [scatter_none _ _ ⟨(i, c), hic, by
          rw [List.length_replicate]; exact hge⟩]
        rfl

/-- Witness for the amended C9 at the concrete sequence `[1, 0, 0, 2, 0, 0]`
(class count 1, decoded index 2). -/
theorem C9_witness : readVoxelFromInt32 [1, 0, 0, 2, 0, 0] 0 = none :=
  C9_out_of_range_fails [1, 0, 0, 2, 0, 0] 0 1 [2, 0, 0] (by decide)
    (by decide) (by decide) ⟨2, by decide, by decide⟩

/-- Witness for C2 at a concrete ground-truth source voxel. -/
theorem C2_witness :
    ((mergeVoxelAIntoVoxelB (ClassVoxel.mk [1] 3 1 0 true)
        (ClassVoxel.mk [2] 1 3 1 false)).current_index,
      (mergeVoxelAIntoVoxelB (ClassVoxel.mk [1] 3 1 0 true)
        (ClassVoxel.mk [2] 1 3 1 false)).foreign_count,
      (mergeVoxelAIntoVoxelB (ClassVoxel.mk [1] 3 1 0 true)
        (ClassVoxel.mk [2] 1 3 1 false)).belongs_count,
      (mergeVoxelAIntoVoxelB (ClassVoxel.mk [1] 3 1 0 true)
        (ClassVoxel.mk [2] 1 3 1 false)).counts) =
    if (ClassVoxel.mk [1] 3 1 0 true).is_gt = true ∨
        (classVoxelBelongingProbability (ClassVoxel.mk [1] 3 1 0 true) >
          classVoxelBelongingProbability (ClassVoxel.mk [2] 1 3 1 false) ∧
          ¬(ClassVoxel.mk [2] 1 3 1 false).is_gt = true) then
      ((0 : Int), 1, 3, [1])
    else ((1 : Int), 3, 1, [2]) :=
  C2_fusion_precedence (ClassVoxel.mk [1] 3 1 0 true)
    (ClassVoxel.mk [2] 1 3 1 false)

/-- Witness for C8 at the concrete uncertainty voxels. -/
theorem C8_witness :
    (mergeUncertaintyVoxelAIntoVoxelB uncertA uncertB).toClassVoxel =
      mergeVoxelAIntoVoxelB uncertA.toClassVoxel uncertB.toClassVoxel ∧
    (mergeUncertaintyVoxelAIntoVoxelB uncertA uncertB).uncertainty_value =
      (if uncertB.is_gt || uncertA.is_gt then uncertB.uncertainty_value
       else (uncertB.uncertainty_value + uncertA.uncertainty_value) / 2) :=
  C8_uncertainty_average.1 uncertA uncertB

end PanopticMapping
